import Mathlib

/-!
Shallow embedding of `src/export_models.py` (repository `Capable`).

The script exports three models to the ONNX interchange format and
normalizes each exported graph into a single self-contained file via
`save_single_file`.  We model the filesystem as an association list from
path strings to file contents, ONNX files as a graph id plus a list of
tensors (each inline or referencing an external-data file), and the
fallible OS operations (`os.remove`, `os.path.getsize`, writing a file)
through an explicit oracle describing which removals and writes the OS
permits.  Directories are not modelled (`os.makedirs` is a no-op here);
external-data locations are full path strings.
-/

deriving instance DecidableEq for Except

namespace ExportModels

/-- Bytes stored in an auxiliary external-data file. -/
abbrev Bytes := List Nat

/-- A tensor of an ONNX graph: its data is either stored inline in the
graph file, or the graph holds a reference (a location path) to an
external-data file. -/
inductive Tensor where
  | inline (name : String) (data : Bytes)
  | extRef (name : String) (loc : String)
  deriving DecidableEq, Repr

/-- An in-memory ONNX model: an opaque graph identifier plus its tensors. -/
structure OnnxModel where
  graphId : Nat
  tensors : List Tensor
  deriving DecidableEq, Repr

/-- Contents of a file on disk: a serialized ONNX model, raw
external-data bytes, or some other file of a given size. -/
inductive FileData where
  | onnx (m : OnnxModel)
  | raw (b : Bytes)
  | blob (sz : Nat)
  deriving DecidableEq, Repr

/-- The filesystem: an association list from full paths to contents. -/
abbrev FS := List (String × FileData)

/-- Look a path up in the filesystem (first match wins). -/
def lookupFS : FS → String → Option FileData
  | [], _ => none
  | (q, d) :: fs, p => if q = p then some d else lookupFS fs p

/-- Write (create or overwrite) a file.  Earlier entries shadow later
ones under `lookupFS`, so consing implements overwriting. -/
def fsWrite (fs : FS) (p : String) (d : FileData) : FS :=
  (p, d) :: fs

/-- Erase a path from the filesystem (all entries for it). -/
def fsRemove : FS → String → FS
  | [], _ => []
  | (q, d) :: fs, p => if q = p then fsRemove fs p else (q, d) :: fsRemove fs p

/-- Errors the modelled operations can raise: `onnx.load` failures,
`onnx.save` failures, and `OSError` from `os.remove` / `os.path.getsize`. -/
inductive Err where
  | loadError | writeError | osError
  deriving DecidableEq, Repr

/-- Which removals and writes the OS permits (permission model). -/
structure Oracles where
  removeOk : String → Bool
  writableOk : String → Bool

/-- Abstract serialized size of a tensor (positive). -/
def tensorSize : Tensor → Nat
  | .inline _ d => 1 + d.length
  | .extRef _ _ => 1

/-- Abstract serialized size of a file's contents.  A serialized ONNX
model is never empty. -/
def fileSize : FileData → Nat
  | .onnx m => 1 + (m.tensors.map tensorSize).sum
  | .raw b => b.length
  | .blob n => n

/-- `os.path.exists`. -/
def osPathExists (fs : FS) (p : String) : Bool :=
  (lookupFS fs p).isSome

/-- `os.path.getsize`: raises `OSError` when the path does not exist. -/
def osGetsize (fs : FS) (p : String) : Except Err Nat :=
  match lookupFS fs p with
  | some d => .ok (fileSize d)
  | none => .error .osError

/-- `os.remove`: raises `OSError` when the path does not exist
(`FileNotFoundError`) or when the OS refuses the unlink
(`PermissionError`); both are subclasses of `OSError`. -/
def osRemove (fs : FS) (p : String) (o : Oracles) : Except Err FS :=
  match lookupFS fs p with
  | none => .error .osError
  | some _ => if o.removeOk p then .ok (fsRemove fs p) else .error .osError

/-- `shutil.move src dst` (the script only calls it when `src` exists);
overwrites `dst` when it already exists. -/
def shutilMove (fs : FS) (src dst : String) : FS :=
  match lookupFS fs src with
  | some d => fsWrite (fsRemove fs src) dst d
  | none => fs

/-- Whether path `p` matches the glob pattern `pre ++ ".*"`: it starts
with `pre` followed by a dot, and the part matched by `*` contains no
path separator (glob's `*` does not cross directories). -/
def globStarMatch (pre p : String) : Bool :=
  p.toList.take (pre.toList.length + 1) == pre.toList ++ ['.'] &&
    !((p.toList.drop (pre.toList.length + 1)).contains '/')

/-- `glob.glob (pre ++ ".*")`: the existing paths matching the pattern. -/
def globStar (fs : FS) (pre : String) : List String :=
  (fs.map Prod.fst).filter (globStarMatch pre)

/-- `glob.glob pat` for a pattern without wildcards: the path itself,
when it exists. -/
def globExact (fs : FS) (pat : String) : List String :=
  (fs.map Prod.fst).filter (fun p => p == pat)

/-- Resolve one tensor's external-data reference against the disk, as
`onnx.load` with `load_external_data=True` does; a missing or non-raw
referenced file is a load error. -/
def resolveTensor (fs : FS) : Tensor → Except Err Tensor
  | .inline n d => .ok (.inline n d)
  | .extRef n loc =>
    match lookupFS fs loc with
    | some (.raw b) => .ok (.inline n b)
    | _ => .error .loadError

/-- Resolve a list of tensors left to right. -/
def resolveTensors (fs : FS) : List Tensor → Except Err (List Tensor)
  | [] => .ok []
  | t :: ts => do
    let t' ← resolveTensor fs t
    let ts' ← resolveTensors fs ts
    .ok (t' :: ts')

/-- `onnx.load p (load_external_data := True)`: fails when `p` is absent
or not an ONNX file; otherwise returns the model with every external
weight reference resolved and loaded into memory. -/
def onnxLoad (fs : FS) (p : String) : Except Err OnnxModel :=
  match lookupFS fs p with
  | some (.onnx m) => do
    let ts ← resolveTensors fs m.tensors
    .ok ⟨m.graphId, ts⟩
  | _ => .error .loadError

/-- `onnx.save m p`: writes the in-memory model as a single file at `p`
(no external references emitted); fails when `p` is not writable. -/
def onnxSave (fs : FS) (m : OnnxModel) (p : String) (o : Oracles) : Except Err FS :=
  if o.writableOk p then .ok (fsWrite fs p (.onnx m)) else .error .writeError

/-- Whether a tensor's data is stored inline. -/
def isInline : Tensor → Bool
  | .inline _ _ => true
  | .extRef _ _ => false

/-- A model is self-contained when every tensor is stored inline. -/
def allInline (m : OnnxModel) : Bool :=
  m.tensors.all isInline

/-- `try: os.remove f except OSError: pass` — `os.remove` raises only
`OSError` subclasses, all of which the script swallows. -/
def tryRemove (fs : FS) (p : String) (o : Oracles) : FS :=
  match osRemove fs p o with
  | .ok fs' => fs'
  | .error _ => fs

/-- The cleanup loop of `save_single_file`: for each globbed file other
than the destination, a best-effort `os.remove`. -/
def cleanupFold (fs : FS) (files : List String) (dst : String) (o : Oracles) : FS :=
  files.foldl (fun acc f => if f = dst then acc else tryRemove acc f o) fs

/-- `save_single_file(src_path, dst_path)` from `src/export_models.py`:
load the model with external data resolved, re-save it as a single
self-contained file at `dst_path`, then best-effort delete every file
matching `src_path + ".data"` or `src_path + ".*"` except the
destination itself. -/
def save_single_file (fs : FS) (src dst : String) (o : Oracles) : Except Err FS := do
  let model ← onnxLoad fs src
  let fs1 ← onnxSave fs model dst o
  let files := globExact fs1 (src ++ ".data") ++ globStar fs1 src
  .ok (cleanupFold fs1 files dst o)

/-- The output directory `os.path.join("app", "src", "main", "assets")`. -/
def OUT : String := "app/src/main/assets"

/-- Destination of the YOLO export. -/
def dstYolo : String := OUT ++ "/yolov8n_fp16.onnx"

/-- Temporary file of the depth export. -/
def tmpDepth : String := OUT ++ "/_depth_tmp.onnx"

/-- Destination of the depth export. -/
def dstDepth : String := OUT ++ "/depth_anything_v2_small_fp16.onnx"

/-- Temporary file of the SegFormer export. -/
def tmpSeg : String := OUT ++ "/_seg_tmp.onnx"

/-- Destination of the SegFormer export. -/
def dstSeg : String := OUT ++ "/segformer_b0.onnx"

/-- Behaviour of the black-box export collaborators during one run:
whether the YOLO exporter produced `yolov8n.onnx` (and its contents),
the models the two `torch.onnx.export` calls write, the auxiliary
external-data files each of those calls creates (suffix and bytes, the
file being `tmp ++ "." ++ suffix`), and the OS permission oracles. -/
structure Env where
  yoloOut : Option OnnxModel
  depthModel : OnnxModel
  depthAux : List (String × Bytes)
  segModel : OnnxModel
  segAux : List (String × Bytes)
  oracles : Oracles

/-- Write the auxiliary external-data files `tmp ++ "." ++ suffix` of an
export. -/
def writeAux (fs : FS) (tmp : String) (aux : List (String × Bytes)) : FS :=
  aux.foldl (fun acc sb => fsWrite acc (tmp ++ "." ++ sb.1) (.raw sb.2)) fs

/-- `torch.onnx.export(model, dummy, tmp, ...)`: writes the primary
graph file at `tmp` plus the auxiliary external-data files. -/
def torchOnnxExport (fs : FS) (tmp : String) (m : OnnxModel) (aux : List (String × Bytes)) : FS :=
  writeAux (fsWrite fs tmp (.onnx m)) tmp aux

/-- The YOLO trace: `model.export(...)` writes `yolov8n.onnx` into the
working directory when it produces output. -/
def yoloTrace (env : Env) (fs : FS) : FS :=
  match env.yoloOut with
  | some m => fsWrite fs "yolov8n.onnx" (.onnx m)
  | none => fs

/-- `if os.path.exists(src): shutil.move(src, dst)` of the YOLO step. -/
def yoloMove (fs : FS) : FS :=
  if osPathExists fs "yolov8n.onnx" then shutilMove fs "yolov8n.onnx" dstYolo else fs

/-- The whole YOLO export step: trace, conditional move, then the size
report `os.path.getsize(dst)` which raises when `dst` does not exist. -/
def yoloStep (env : Env) (fs : FS) : Except Err FS := do
  let fs1 := yoloMove (yoloTrace env fs)
  let _ ← osGetsize fs1 dstYolo
  .ok fs1

/-- The tail shared by the two torch exports: normalize `tmp` into
`dst`, then `if os.path.exists(tmp): os.remove(tmp)` (unguarded, a
failure here propagates), then `os.path.getsize(dst)`. -/
def normStep (fs : FS) (tmp dst : String) (o : Oracles) : Except Err FS := do
  let fs1 ← save_single_file fs tmp dst o
  let fs2 ← if osPathExists fs1 tmp then osRemove fs1 tmp o else .ok fs1
  let _ ← osGetsize fs2 dst
  .ok fs2

/-- The depth export step. -/
def depthStep (env : Env) (fs : FS) : Except Err FS :=
  normStep (torchOnnxExport fs tmpDepth env.depthModel env.depthAux) tmpDepth dstDepth env.oracles

/-- The SegFormer export step. -/
def segStep (env : Env) (fs : FS) : Except Err FS :=
  normStep (torchOnnxExport fs tmpSeg env.segModel env.segAux) tmpSeg dstSeg env.oracles

/-- The whole script: the three export steps in order.  The final
size-report loop only reads existing files and is a filesystem no-op. -/
def script (env : Env) (fs : FS) : Except Err FS := do
  let fs1 ← yoloStep env fs
  let fs2 ← depthStep env fs1
  segStep env fs2

/-- Extract the filesystem of a successful result (used to evaluate
concrete runs). -/
def getOk : Except Err FS → FS
  | .ok fs => fs
  | .error _ => []

/-! ### The arguments of the three trace/export calls, transcribed -/

/-- The arguments of the `ultralytics` call
`model.export(format="onnx", imgsz=640, simplify=True, opset=17)`.
That API surface carries no input/output naming, no constant-folding
flag, and the `dynamic` flag (default `False`) is not passed. -/
structure UltralyticsExportArgs where
  format : String
  imgsz : Nat
  simplify : Bool
  opset : Nat
  deriving DecidableEq, Repr

/-- The YOLO export call of the script. -/
def yoloExportArgs : UltralyticsExportArgs :=
  { format := "onnx", imgsz := 640, simplify := true, opset := 17 }

/-- The arguments of a `torch.onnx.export(...)` call; `none` means the
keyword argument is not passed.  `dynamic_axes` maps a tensor name to
its dynamic dimensions (index and label). -/
structure TorchOnnxExportArgs where
  input_names : Option (List String)
  output_names : Option (List String)
  opset_version : Nat
  do_constant_folding : Bool
  dynamic_axes : Option (List (String × List (Nat × String)))
  deriving DecidableEq, Repr

/-- The depth export call of the script. -/
def depthExportArgs : TorchOnnxExportArgs :=
  { input_names := some ["image"], output_names := some ["depth"],
    opset_version := 17, do_constant_folding := true, dynamic_axes := none }

/-- The SegFormer export call of the script. -/
def segExportArgs : TorchOnnxExportArgs :=
  { input_names := some ["pixel_values"], output_names := some ["logits"],
    opset_version := 17, do_constant_folding := true,
    dynamic_axes := some [("pixel_values", [(0, "batch")]), ("logits", [(0, "batch")])] }

/-- A uniform view of one export call, for comparing the three. -/
structure ExportView where
  opset : Nat
  namesExplicit : Bool
  constantFoldingRequested : Bool
  variableBatch : Bool
  deriving DecidableEq, Repr

/-- Whether a `dynamic_axes` entry declares dimension 0 of tensor `n`. -/
def declaresDim0 (axs : List (String × List (Nat × String))) (n : String) : Bool :=
  axs.any (fun x => x.1 == n && x.2.any (fun d => d.1 == 0))

/-- View of a `torch.onnx.export` call. -/
def torchView (a : TorchOnnxExportArgs) : ExportView :=
  { opset := a.opset_version
    namesExplicit := a.input_names.isSome && a.output_names.isSome
    constantFoldingRequested := a.do_constant_folding
    variableBatch :=
      match a.dynamic_axes, a.input_names, a.output_names with
      | some axs, some (i :: _), some (o :: _) => declaresDim0 axs i && declaresDim0 axs o
      | _, _, _ => false }

/-- View of the YOLO export call: `model.export` is passed opset 17, but
the call names no inputs or outputs, passes no constant-folding flag
(only graph simplification), and leaves `dynamic` at its `False`
default. -/
def yoloView : ExportView :=
  { opset := yoloExportArgs.opset, namesExplicit := false,
    constantFoldingRequested := false, variableBatch := false }

/-- The three export calls of the script, in script order. -/
def exportViews : List ExportView :=
  [yoloView, torchView depthExportArgs, torchView segExportArgs]

/-- Claim C7 as stated: all three calls use opset 17, name their inputs
and outputs explicitly and request constant folding, and exactly one
call — the SegFormer one — declares a variable batch dimension. -/
def c7Stated : Bool :=
  exportViews.all (fun v => v.opset == 17 && v.namesExplicit && v.constantFoldingRequested) &&
    (exportViews.filter (fun v => v.variableBatch)).length == 1 &&
    (torchView segExportArgs).variableBatch

/-! ### Concrete fixtures used by witnesses and counterexamples -/

/-- An oracle under which every removal and write succeeds. -/
def oAll : Oracles := ⟨fun _ => true, fun _ => true⟩

/-- An oracle under which the OS refuses every deletion. -/
def oNoRemove : Oracles := ⟨fun _ => false, fun _ => true⟩

/-- An oracle under which no path is writable. -/
def oNoWrite : Oracles := ⟨fun _ => true, fun _ => false⟩

/-- A source graph file whose weights live in `"m.onnx.data"`. -/
def splitFS : FS :=
  [("m.onnx", .onnx ⟨1, [.extRef "w" "m.onnx.data"]⟩), ("m.onnx.data", .raw [5])]

/-- The model of `splitFS` once its external data is resolved. -/
def splitModel : OnnxModel := ⟨1, [.inline "w" [5]]⟩

/-- A self-contained source next to an unrelated sibling `"m.onnx.xyz"`. -/
def siblingFS : FS :=
  [("m.onnx", .onnx splitModel), ("m.onnx.xyz", .blob 3)]

/-- Depth model whose weights the exporter externalizes into
`tmpDepth ++ ".data"`. -/
def splitDepthModel : OnnxModel := ⟨2, [.extRef "w" (tmpDepth ++ ".data")]⟩

/-- Oracle refusing exactly the deletion of the depth external-data file. -/
def c6Oracles : Oracles := ⟨fun s => s != tmpDepth ++ ".data", fun _ => true⟩

/-- Run behaviour for the C6 counterexample: every export works, but the
OS refuses to delete the depth external-data file. -/
def c6Env : Env :=
  ⟨some ⟨1, []⟩, splitDepthModel, [("data", [9])], ⟨3, []⟩, [], c6Oracles⟩

/-- A fully well-behaved run: every export works, the depth exporter
externalizes its weights, and the OS permits everything. -/
def wEnv : Env :=
  ⟨some ⟨1, []⟩, splitDepthModel, [("data", [9])], ⟨3, []⟩, [], oAll⟩

/-- A run whose YOLO exporter produces no output file. -/
def c10Env : Env := ⟨none, ⟨2, []⟩, [], ⟨3, []⟩, [], oAll⟩

/-! ### Basic lemmas about the filesystem operations -/

theorem bindOk {α β : Type} (a : α) (f : α → Except Err β) :
    (Except.ok a : Except Err α) >>= f = f a := rfl

theorem bindErr {α β : Type} (e : Err) (f : α → Except Err β) :
    (Except.error e : Except Err α) >>= f = Except.error e := rfl

theorem lookupFS_fsWrite (fs : FS) (p : String) (d : FileData) (q : String) :
    lookupFS (fsWrite fs p d) q = if p = q then some d else lookupFS fs q := rfl

theorem lookupFS_fsRemove (fs : FS) (p q : String) :
    lookupFS (fsRemove fs p) q = if p = q then none else lookupFS fs q := by
  induction fs with
  | nil => simp [fsRemove, lookupFS]
  | cons e fs ih =>
    obtain ⟨a, b⟩ := e
    simp only [fsRemove, lookupFS]
    split_ifs with h1 h2 h3 <;> simp_all [lookupFS]

theorem lookupFS_mem_keys (fs : FS) (q : String) (h : lookupFS fs q ≠ none) :
    q ∈ fs.map Prod.fst := by
  induction fs with
  | nil => simp [lookupFS] at h
  | cons e fs ih =>
    obtain ⟨a, b⟩ := e
    by_cases haq : a = q
    · subst haq; simp
    · simp only [lookupFS, if_neg haq] at h
      exact List.mem_cons_of_mem _ (ih h)

theorem mem_globStar (fs : FS) (pre q : String) (hq : lookupFS fs q ≠ none)
    (hm : globStarMatch pre q = true) : q ∈ globStar fs pre :=
  List.mem_filter.mpr ⟨lookupFS_mem_keys fs q hq, hm⟩

theorem globStarMatch_of_mem (fs : FS) (pre : String) {q : String}
    (h : q ∈ globStar fs pre) : globStarMatch pre q = true :=
  (List.mem_filter.mp h).2

theorem eq_of_mem_globExact (fs : FS) (pat : String) {q : String}
    (h : q ∈ globExact fs pat) : q = pat :=
  beq_iff_eq.mp (List.mem_filter.mp h).2

theorem lookupFS_tryRemove_self (fs : FS) (p : String) (o : Oracles)
    (h : o.removeOk p = true) : lookupFS (tryRemove fs p o) p = none := by
  unfold tryRemove osRemove
  cases hl : lookupFS fs p with
  | none => simp [hl]
  | some d => simp [hl, h, lookupFS_fsRemove]

theorem lookupFS_tryRemove_other (fs : FS) (p : String) (o : Oracles) (q : String)
    (h : p ≠ q) : lookupFS (tryRemove fs p o) q = lookupFS fs q := by
  unfold tryRemove osRemove
  cases hl : lookupFS fs p with
  | none => simp [hl]
  | some d => by_cases hro : o.removeOk p <;> simp [hl, hro, lookupFS_fsRemove, h]

theorem lookupFS_tryRemove_none (fs : FS) (p : String) (o : Oracles) (q : String)
    (h : lookupFS fs q = none) : lookupFS (tryRemove fs p o) q = none := by
  by_cases hpq : p = q
  · subst hpq
    unfold tryRemove osRemove
    simp [h]
  · rw [lookupFS_tryRemove_other fs p o q hpq]; exact h

/-! ### Lemmas about the cleanup loop -/

theorem cleanupFold_cons (fs : FS) (f : String) (files : List String)
    (dst : String) (o : Oracles) :
    cleanupFold fs (f :: files) dst o =
      cleanupFold (if f = dst then fs else tryRemove fs f o) files dst o := rfl

theorem cleanupFold_none (files : List String) (dst : String) (o : Oracles) (q : String) :
    ∀ fs : FS, lookupFS fs q = none → lookupFS (cleanupFold fs files dst o) q = none := by
  induction files with
  | nil => intro fs h; exact h
  | cons f files ih =>
    intro fs h
    rw [cleanupFold_cons]
    by_cases hf : f = dst
    · rw [if_pos hf]; exact ih fs h
    · rw [if_neg hf]; exact ih _ (lookupFS_tryRemove_none fs f o q h)

theorem cleanupFold_frame (files : List String) (dst : String) (o : Oracles) (q : String) :
    ∀ fs : FS, q ∉ files → lookupFS (cleanupFold fs files dst o) q = lookupFS fs q := by
  induction files with
  | nil => intro fs _; rfl
  | cons f files ih =>
    intro fs h
    have hfq : f ≠ q := fun he => h (he ▸ List.mem_cons_self f files)
    have h2 : q ∉ files := fun hm => h (List.mem_cons_of_mem f hm)
    rw [cleanupFold_cons]
    by_cases hf : f = dst
    · rw [if_pos hf]; exact ih fs h2
    · rw [if_neg hf, ih _ h2, lookupFS_tryRemove_other fs f o q hfq]

theorem cleanupFold_dst (files : List String) (dst : String) (o : Oracles) :
    ∀ fs : FS, lookupFS (cleanupFold fs files dst o) dst = lookupFS fs dst := by
  induction files with
  | nil => intro fs; rfl
  | cons f files ih =>
    intro fs
    rw [cleanupFold_cons]
    by_cases hf : f = dst
    · rw [if_pos hf]; exact ih fs
    · rw [if_neg hf, ih, lookupFS_tryRemove_other fs f o dst hf]

theorem cleanupFold_removes (files : List String) (dst : String) (o : Oracles)
    (q : String) (hq : o.removeOk q = true) (hqd : q ≠ dst) :
    ∀ fs : FS, (q ∈ files ∨ lookupFS fs q = none) →
      lookupFS (cleanupFold fs files dst o) q = none := by
  induction files with
  | nil =>
    intro fs h
    cases h with
    | inl h => exact absurd h (List.not_mem_nil q)
    | inr h => exact h
  | cons f files ih =>
    intro fs h
    rw [cleanupFold_cons]
    by_cases hf : f = dst
    · rw [if_pos hf]
      apply ih fs
      cases h with
      | inl h =>
        cases List.mem_cons.mp h with
        | inl h1 => exact absurd (h1.trans hf) hqd
        | inr h2 => exact Or.inl h2
      | inr h => exact Or.inr h
    · rw [if_neg hf]
      by_cases hfq : f = q
      · subst hfq
        exact ih _ (Or.inr (lookupFS_tryRemove_self fs f o hq))
      · apply ih
        cases h with
        | inl h =>
          cases List.mem_cons.mp h with
          | inl h1 => exact absurd h1.symm hfq
          | inr h2 => exact Or.inl h2
        | inr h => exact Or.inr (lookupFS_tryRemove_none fs f o q h)

/-! ### Lemmas about loading and saving -/

theorem resolveTensor_inline (fs : FS) (t t' : Tensor)
    (h : resolveTensor fs t = .ok t') : isInline t' = true := by
  cases t with
  | inline n d =>
    simp only [resolveTensor, Except.ok.injEq] at h
    rw [← h]; rfl
  | extRef n loc =>
    simp only [resolveTensor] at h
    split at h
    · simp only [Except.ok.injEq] at h
      rw [← h]; rfl
    · exact absurd h (by simp)

theorem resolveTensors_all_inline (fs : FS) :
    ∀ ts ts', resolveTensors fs ts = .ok ts' → ts'.all isInline = true := by
  intro ts
  induction ts with
  | nil =>
    intro ts' h
    simp only [resolveTensors, Except.ok.injEq] at h
    rw [← h]; rfl
  | cons t ts ih =>
    intro ts' h
    unfold resolveTensors at h
    cases hr : resolveTensor fs t with
    | error e => rw [hr, bindErr] at h; exact absurd h (by simp)
    | ok t' =>
      rw [hr, bindOk] at h
      cases hrs : resolveTensors fs ts with
      | error e => rw [hrs, bindErr] at h; exact absurd h (by simp)
      | ok ts2 =>
        rw [hrs, bindOk] at h
        simp only [Except.ok.injEq] at h
        rw [← h]
        simp [List.all_cons, resolveTensor_inline fs t t' hr, ih ts2 hrs]

theorem resolveTensors_error (fs : FS) :
    ∀ ts e, resolveTensors fs ts = .error e → e = .loadError := by
  intro ts
  induction ts with
  | nil => intro e h; exact absurd h (by simp [resolveTensors])
  | cons t ts ih =>
    intro e h
    unfold resolveTensors at h
    cases hr : resolveTensor fs t with
    | error e1 =>
      rw [hr, bindErr] at h
      have he : e1 = e := by simpa using h
      subst he
      cases t with
      | inline n d => simp [resolveTensor] at hr
      | extRef n loc =>
        simp only [resolveTensor] at hr
        split at hr
        · exact absurd hr (by simp)
        · simpa using hr.symm
    | ok t' =>
      rw [hr, bindOk] at h
      cases hrs : resolveTensors fs ts with
      | error e2 =>
        rw [hrs, bindErr] at h
        have he : e2 = e := by simpa using h
        exact he ▸ ih e2 hrs
      | ok ts2 => rw [hrs, bindOk] at h; exact absurd h (by simp)

theorem resolveTensors_of_all_inline (fs : FS) :
    ∀ ts : List Tensor, ts.all isInline = true → resolveTensors fs ts = .ok ts := by
  intro ts
  induction ts with
  | nil => intro _; rfl
  | cons t ts ih =>
    intro h
    rw [List.all_cons, Bool.and_eq_true] at h
    have ht : resolveTensor fs t = .ok t := by
      cases t with
      | inline n d => rfl
      | extRef n loc => simp [isInline] at h
    unfold resolveTensors
    rw [ht, bindOk, ih h.2, bindOk]

theorem onnxLoad_allInline (fs : FS) (p : String) (m : OnnxModel)
    (h : onnxLoad fs p = .ok m) : allInline m = true := by
  unfold onnxLoad at h
  split at h
  · rename_i m0 _
    cases hrs : resolveTensors fs m0.tensors with
    | error e => rw [hrs, bindErr] at h; exact absurd h (by simp)
    | ok ts =>
      rw [hrs, bindOk] at h
      simp only [Except.ok.injEq] at h
      rw [← h]
      exact resolveTensors_all_inline fs m0.tensors ts hrs
  · exact absurd h (by simp)

theorem onnxLoad_error_eq (fs : FS) (p : String) (e : Err)
    (h : onnxLoad fs p = .error e) : e = .loadError := by
  unfold onnxLoad at h
  split at h
  · rename_i m0 _
    cases hrs : resolveTensors fs m0.tensors with
    | error e2 =>
      rw [hrs, bindErr] at h
      have he : e2 = e := by simpa using h
      exact he ▸ resolveTensors_error fs m0.tensors e2 hrs
    | ok ts => rw [hrs, bindOk] at h; exact absurd h (by simp)
  · simpa using h.symm

theorem onnxLoad_of_self_contained (fs : FS) (p : String) (m : OnnxModel)
    (hl : lookupFS fs p = some (.onnx m)) (hin : allInline m = true) :
    onnxLoad fs p = .ok m := by
  unfold onnxLoad
  rw [hl]
  simp only [resolveTensors_of_all_inline fs m.tensors hin, bindOk]

/-- The result of a successful `save_single_file`, spelled out. -/
def ssfResult (fs : FS) (src dst : String) (o : Oracles) (m : OnnxModel) : FS :=
  cleanupFold (fsWrite fs dst (.onnx m))
    (globExact (fsWrite fs dst (.onnx m)) (src ++ ".data") ++
      globStar (fsWrite fs dst (.onnx m)) src) dst o

theorem save_single_file_ok_iff (fs : FS) (src dst : String) (o : Oracles) (fs' : FS) :
    save_single_file fs src dst o = .ok fs' ↔
      ∃ m, onnxLoad fs src = .ok m ∧ o.writableOk dst = true ∧
        fs' = ssfResult fs src dst o m := by
  unfold save_single_file onnxSave ssfResult
  cases hl : onnxLoad fs src with
  | error e => simp [bindErr]
  | ok m =>
    by_cases hw : o.writableOk dst
    · simp [bindOk, hw, eq_comm]
    · simp [bindOk, hw, bindErr]

/-- Shared helper: after a successful `save_single_file`, a file matching
the star glob, distinct from the destination and whose deletion the OS
permits, is gone. -/
theorem ssf_cleanup_removes (fs : FS) (src dst : String) (o : Oracles) (fs' : FS)
    (h : save_single_file fs src dst o = .ok fs') (k : String)
    (hk : globStarMatch src k = true) (hkd : k ≠ dst) (hro : o.removeOk k = true) :
    lookupFS fs' k = none := by
  obtain ⟨m, hl, hw, hfs⟩ := (save_single_file_ok_iff fs src dst o fs').mp h
  subst hfs
  unfold ssfResult
  by_cases hp : lookupFS (fsWrite fs dst (.onnx m)) k = none
  · exact cleanupFold_none _ dst o k _ hp
  · exact cleanupFold_removes _ dst o k hro hkd _
      (Or.inl (List.mem_append.mpr (Or.inr (mem_globStar _ src k hp hk))))

/-- Shared helper: after a successful `save_single_file`, the destination
holds exactly the loaded, fully materialized model. -/
theorem ssf_dst_content (fs : FS) (src dst : String) (o : Oracles) (fs' : FS) (m : OnnxModel)
    (h : save_single_file fs src dst o = .ok fs') (hl : onnxLoad fs src = .ok m) :
    lookupFS fs' dst = some (.onnx m) := by
  obtain ⟨m2, hl2, hw, hfs⟩ := (save_single_file_ok_iff fs src dst o fs').mp h
  have hm : m2 = m := by
    rw [hl] at hl2
    simpa using hl2.symm
  subst hm hfs
  unfold ssfResult
  rw [cleanupFold_dst, lookupFS_fsWrite]
  simp

/-! ### String-pattern lemmas -/

theorem toList_append (a b : String) : (a ++ b).toList = a.toList ++ b.toList :=
  String.data_append a b

theorem toList_dot (a s : String) :
    (a ++ "." ++ s).toList = (a.toList ++ ['.']) ++ s.toList := by
  rw [toList_append, toList_append]
  rfl

/-- The literal pattern `a ++ ".data"` is the convention instance with
suffix `"data"`. -/
theorem append_dot_data (a : String) : a ++ "." ++ "data" = a ++ ".data" := by
  apply String.ext
  rw [String.data_append, String.data_append, String.data_append, List.append_assoc]
  rfl

theorem length_dot (a : String) : (a.toList ++ ['.']).length = a.toList.length + 1 := by
  simp

/-- A name of the convention form `a ++ "." ++ s` matches the star glob
of `a` whenever the suffix stays inside `a`'s directory. -/
theorem globStarMatch_self_suffix (a s : String) (hs : s.toList.contains '/' = false) :
    globStarMatch a (a ++ "." ++ s) = true := by
  unfold globStarMatch
  rw [toList_dot, ← length_dot a, List.take_left, List.drop_left, hs]
  simp

/-- A name of the convention form `other ++ "." ++ s` cannot match the
star glob of `pat` when the two patterns visibly disagree on their
common prefix (checked by `decide` at concrete instances). -/
theorem globStarMatch_ne_of_take (pat other : String) (s : String)
    (h : (other.toList ++ ['.']).take (pat.toList.length + 1) ≠
      (pat.toList ++ ['.']).take (other.toList.length + 1)) :
    globStarMatch pat (other ++ "." ++ s) = false := by
  by_contra hb
  rw [Bool.not_eq_false] at hb
  unfold globStarMatch at hb
  rw [Bool.and_eq_true] at hb
  have h1 : (other ++ "." ++ s).toList.take (pat.toList.length + 1) = pat.toList ++ ['.'] :=
    beq_iff_eq.mp hb.1
  have h2 : (other ++ "." ++ s).toList.take (other.toList.length + 1) =
      other.toList ++ ['.'] := by
    rw [toList_dot, ← length_dot other, List.take_left]
  apply h
  calc (other.toList ++ ['.']).take (pat.toList.length + 1)
      = ((other ++ "." ++ s).toList.take (other.toList.length + 1)).take
          (pat.toList.length + 1) := by rw [h2]
    _ = (other ++ "." ++ s).toList.take
          (min (pat.toList.length + 1) (other.toList.length + 1)) :=
        List.take_take _ _ _
    _ = ((other ++ "." ++ s).toList.take (pat.toList.length + 1)).take
          (other.toList.length + 1) := by rw [List.take_take, Nat.min_comm]
    _ = (pat.toList ++ ['.']).take (other.toList.length + 1) := by rw [h1]

/-- A string whose head visibly differs from `other ++ "."` is no
instance `other ++ "." ++ s` of the convention (checked by `decide` at
concrete instances). -/
theorem ne_of_take_front (other k : String)
    (h : k.toList.take (other.toList.length + 1) ≠ other.toList ++ ['.']) :
    ∀ s : String, k ≠ other ++ "." ++ s := by
  intro s heq
  apply h
  rw [heq, toList_dot, ← length_dot other, List.take_left]

/-! ### Frame and origin lemmas for the script's steps -/

theorem lookupFS_writeAux_other (tmp : String) :
    ∀ (aux : List (String × Bytes)) (fs : FS) (q : String),
      (∀ sb ∈ aux, q ≠ tmp ++ "." ++ sb.1) →
      lookupFS (writeAux fs tmp aux) q = lookupFS fs q := by
  intro aux
  induction aux with
  | nil => intro fs q _; rfl
  | cons sb aux ih =>
    intro fs q hq
    have h1 : q ≠ tmp ++ "." ++ sb.1 := hq sb (List.mem_cons_self sb aux)
    have h2 : ∀ x ∈ aux, q ≠ tmp ++ "." ++ x.1 :=
      fun x hx => hq x (List.mem_cons_of_mem sb hx)
    show lookupFS (writeAux (fsWrite fs (tmp ++ "." ++ sb.1) (.raw sb.2)) tmp aux) q =
      lookupFS fs q
    rw [ih _ q h2, lookupFS_fsWrite, if_neg (fun he => h1 he.symm)]

theorem lookupFS_writeAux_cases (tmp : String) :
    ∀ (aux : List (String × Bytes)) (fs : FS) (q : String),
      lookupFS (writeAux fs tmp aux) q ≠ none →
      (∃ sb ∈ aux, q = tmp ++ "." ++ sb.1) ∨ lookupFS fs q ≠ none := by
  intro aux
  induction aux with
  | nil => intro fs q h; exact Or.inr h
  | cons sb aux ih =>
    intro fs q h
    cases ih (fsWrite fs (tmp ++ "." ++ sb.1) (.raw sb.2)) q h with
    | inl h1 =>
      obtain ⟨x, hx, he⟩ := h1
      exact Or.inl ⟨x, List.mem_cons_of_mem sb hx, he⟩
    | inr h1 =>
      rw [lookupFS_fsWrite] at h1
      by_cases he : tmp ++ "." ++ sb.1 = q
      · exact Or.inl ⟨sb, List.mem_cons_self sb aux, he.symm⟩
      · rw [if_neg he] at h1
        exact Or.inr h1

theorem lookupFS_torchExport_other (fs : FS) (tmp : String) (m : OnnxModel)
    (aux : List (String × Bytes)) (q : String) (hq : q ≠ tmp)
    (haux : ∀ sb ∈ aux, q ≠ tmp ++ "." ++ sb.1) :
    lookupFS (torchOnnxExport fs tmp m aux) q = lookupFS fs q := by
  unfold torchOnnxExport
  rw [lookupFS_writeAux_other tmp aux _ q haux, lookupFS_fsWrite,
    if_neg (fun he => hq he.symm)]

theorem lookupFS_torchExport_cases (fs : FS) (tmp : String) (m : OnnxModel)
    (aux : List (String × Bytes)) (q : String)
    (h : lookupFS (torchOnnxExport fs tmp m aux) q ≠ none) :
    q = tmp ∨ (∃ sb ∈ aux, q = tmp ++ "." ++ sb.1) ∨ lookupFS fs q ≠ none := by
  unfold torchOnnxExport at h
  cases lookupFS_writeAux_cases tmp aux _ q h with
  | inl h1 => exact Or.inr (Or.inl h1)
  | inr h1 =>
    rw [lookupFS_fsWrite] at h1
    by_cases he : tmp = q
    · exact Or.inl he.symm
    · rw [if_neg he] at h1
      exact Or.inr (Or.inr h1)

theorem ssf_frame (fs : FS) (src dst : String) (o : Oracles) (fs' : FS) (q : String)
    (h : save_single_file fs src dst o = .ok fs') (hqd : q ≠ dst)
    (hqm : globStarMatch src q = false) :
    lookupFS fs' q = lookupFS fs q := by
  obtain ⟨m, hl, hw, hfs⟩ := (save_single_file_ok_iff fs src dst o fs').mp h
  subst hfs
  unfold ssfResult
  have hnotin : q ∉ globExact (fsWrite fs dst (.onnx m)) (src ++ ".data") ++
      globStar (fsWrite fs dst (.onnx m)) src := by
    intro hin
    cases List.mem_append.mp hin with
    | inl h1 =>
      have he := eq_of_mem_globExact _ _ h1
      have : globStarMatch src q = true := by
        rw [he, ← append_dot_data src]
        exact globStarMatch_self_suffix src "data" (by decide)
      rw [this] at hqm; exact Bool.noConfusion hqm
    | inr h1 =>
      have := globStarMatch_of_mem _ src h1
      rw [this] at hqm; exact Bool.noConfusion hqm
  rw [cleanupFold_frame _ dst o q _ hnotin, lookupFS_fsWrite,
    if_neg (fun he => hqd he.symm)]

theorem ssf_lookup_cases (fs : FS) (src dst : String) (o : Oracles) (fs' : FS) (q : String)
    (h : save_single_file fs src dst o = .ok fs') (hq : lookupFS fs' q ≠ none) :
    q = dst ∨ lookupFS fs q ≠ none := by
  obtain ⟨m, hl, hw, hfs⟩ := (save_single_file_ok_iff fs src dst o fs').mp h
  subst hfs
  unfold ssfResult at hq
  have h1 : lookupFS (fsWrite fs dst (.onnx m)) q ≠ none := by
    intro hn
    exact hq (cleanupFold_none _ dst o q _ hn)
  rw [lookupFS_fsWrite] at h1
  by_cases he : dst = q
  · exact Or.inl he.symm
  · rw [if_neg he] at h1
    exact Or.inr h1

theorem normStep_ok_cases (fs : FS) (tmp dst : String) (o : Oracles) (fs' : FS)
    (h : normStep fs tmp dst o = .ok fs') :
    ∃ fs1, save_single_file fs tmp dst o = .ok fs1 ∧
      (fs' = fs1 ∨ fs' = fsRemove fs1 tmp) ∧ lookupFS fs' tmp = none ∧
      lookupFS fs' dst ≠ none := by
  unfold normStep at h
  cases hs : save_single_file fs tmp dst o with
  | error e => rw [hs, bindErr] at h; exact absurd h (by simp)
  | ok fs1 =>
    rw [hs, bindOk] at h
    refine ⟨fs1, rfl, ?_⟩
    by_cases hex : osPathExists fs1 tmp
    · rw [if_pos hex] at h
      unfold osRemove at h
      unfold osPathExists at hex
      cases hl : lookupFS fs1 tmp with
      | none => rw [hl] at hex; exact absurd hex (by simp)
      | some d =>
        rw [hl] at h
        by_cases hro : o.removeOk tmp
        · rw [if_pos hro, bindOk] at h
          simp only [] at h
          cases hg : osGetsize (fsRemove fs1 tmp) dst with
          | error e => rw [hg, bindErr] at h; exact absurd h (by simp)
          | ok n =>
            rw [hg, bindOk] at h
            have hfs : fs' = fsRemove fs1 tmp := by simpa using h.symm
            subst hfs
            refine ⟨Or.inr rfl, ?_, ?_⟩
            · rw [lookupFS_fsRemove]; simp
            · unfold osGetsize at hg
              cases hld : lookupFS (fsRemove fs1 tmp) dst with
              | none => rw [hld] at hg; exact absurd hg (by simp)
              | some d2 => simp
        · rw [if_neg hro, bindErr] at h; exact absurd h (by simp)
    · rw [if_neg hex, bindOk] at h
      simp only [] at h
      unfold osPathExists at hex
      cases hg : osGetsize fs1 dst with
      | error e => rw [hg, bindErr] at h; exact absurd h (by simp)
      | ok n =>
        rw [hg, bindOk] at h
        have hfs : fs' = fs1 := by simpa using h.symm
        subst hfs
        refine ⟨Or.inl rfl, ?_, ?_⟩
        · cases hl : lookupFS fs' tmp with
          | none => rfl
          | some d => rw [hl] at hex; simp at hex
        · unfold osGetsize at hg
          cases hld : lookupFS fs' dst with
          | none => rw [hld] at hg; exact absurd hg (by simp)
          | some d2 => simp

theorem normStep_frame (fs : FS) (tmp dst : String) (o : Oracles) (fs' : FS) (q : String)
    (h : normStep fs tmp dst o = .ok fs') (hqd : q ≠ dst) (hqt : q ≠ tmp)
    (hqm : globStarMatch tmp q = false) :
    lookupFS fs' q = lookupFS fs q := by
  obtain ⟨fs1, hs, hor, _, _⟩ := normStep_ok_cases fs tmp dst o fs' h
  have hf := ssf_frame fs tmp dst o fs1 q hs hqd hqm
  cases hor with
  | inl he => rw [he, hf]
  | inr he => rw [he, lookupFS_fsRemove, if_neg (fun h2 => hqt h2.symm), hf]

theorem normStep_lookup_cases (fs : FS) (tmp dst : String) (o : Oracles) (fs' : FS)
    (q : String) (h : normStep fs tmp dst o = .ok fs') (hq : lookupFS fs' q ≠ none) :
    q = dst ∨ lookupFS fs q ≠ none := by
  obtain ⟨fs1, hs, hor, _, _⟩ := normStep_ok_cases fs tmp dst o fs' h
  have h1 : lookupFS fs1 q ≠ none := by
    cases hor with
    | inl he => rw [← he]; exact hq
    | inr he =>
      rw [he, lookupFS_fsRemove] at hq
      by_cases ht : tmp = q
      · rw [if_pos ht] at hq; exact absurd rfl hq
      · rw [if_neg ht] at hq; exact hq
  exact ssf_lookup_cases fs tmp dst o fs1 q hs h1

/-- With every deletion permitted, a successful `normStep` leaves no file
matching the temporary's star glob. -/
theorem normStep_conv_removed (fs : FS) (tmp dst : String) (o : Oracles) (fs' : FS)
    (h : normStep fs tmp dst o = .ok fs') (hall : ∀ s, o.removeOk s = true)
    (k : String) (hk : globStarMatch tmp k = true) (hkd : k ≠ dst) :
    lookupFS fs' k = none := by
  obtain ⟨fs1, hs, hor, _, _⟩ := normStep_ok_cases fs tmp dst o fs' h
  have h1 : lookupFS fs1 k = none := ssf_cleanup_removes fs tmp dst o fs1 hs k hk hkd (hall k)
  cases hor with
  | inl he => rw [he]; exact h1
  | inr he =>
    rw [he, lookupFS_fsRemove]
    by_cases ht : tmp = k
    · rw [if_pos ht]
    · rw [if_neg ht]; exact h1

/-- The destination contents after a successful `normStep` whose
temporary is a different path. -/
theorem normStep_dst_content (fs : FS) (tmp dst : String) (o : Oracles) (fs' : FS)
    (h : normStep fs tmp dst o = .ok fs') (htd : tmp ≠ dst) :
    ∃ m, lookupFS fs' dst = some (.onnx m) := by
  obtain ⟨fs1, hs, hor, _, _⟩ := normStep_ok_cases fs tmp dst o fs' h
  obtain ⟨m, hl, hw, hfs⟩ := (save_single_file_ok_iff fs tmp dst o fs1).mp hs
  have hd : lookupFS fs1 dst = some (.onnx m) := ssf_dst_content fs tmp dst o fs1 m hs hl
  refine ⟨m, ?_⟩
  cases hor with
  | inl he => rw [he]; exact hd
  | inr he => rw [he, lookupFS_fsRemove, if_neg htd]; exact hd

theorem yoloStep_ok_shape (env : Env) (fs : FS) (fs1 : FS)
    (h : yoloStep env fs = .ok fs1) :
    fs1 = yoloMove (yoloTrace env fs) ∧ lookupFS fs1 dstYolo ≠ none := by
  unfold yoloStep at h
  simp only [] at h
  cases hg : osGetsize (yoloMove (yoloTrace env fs)) dstYolo with
  | error e => rw [hg, bindErr] at h; exact absurd h (by simp)
  | ok n =>
    rw [hg, bindOk] at h
    have hfs : fs1 = yoloMove (yoloTrace env fs) := by simpa using h.symm
    subst hfs
    refine ⟨rfl, ?_⟩
    unfold osGetsize at hg
    cases hld : lookupFS (yoloMove (yoloTrace env fs)) dstYolo with
    | none => rw [hld] at hg; exact absurd hg (by simp)
    | some d2 => simp

theorem yoloTrace_frame (env : Env) (fs : FS) (q : String) (hq : q ≠ "yolov8n.onnx") :
    lookupFS (yoloTrace env fs) q = lookupFS fs q := by
  unfold yoloTrace
  cases env.yoloOut with
  | none => rfl
  | some m => rw [lookupFS_fsWrite, if_neg (fun he => hq he.symm)]

theorem yoloMove_frame (fs : FS) (q : String) (hq1 : q ≠ "yolov8n.onnx")
    (hq2 : q ≠ dstYolo) : lookupFS (yoloMove fs) q = lookupFS fs q := by
  unfold yoloMove
  by_cases hex : osPathExists fs "yolov8n.onnx"
  · rw [if_pos hex]
    unfold shutilMove
    cases hl : lookupFS fs "yolov8n.onnx" with
    | none => rfl
    | some d =>
      rw [lookupFS_fsWrite, if_neg (fun he => hq2 he.symm), lookupFS_fsRemove,
        if_neg (fun he => hq1 he.symm)]
  · rw [if_neg hex]

theorem yoloStep_frame (env : Env) (fs : FS) (fs1 : FS) (q : String)
    (h : yoloStep env fs = .ok fs1) (hq1 : q ≠ "yolov8n.onnx") (hq2 : q ≠ dstYolo) :
    lookupFS fs1 q = lookupFS fs q := by
  obtain ⟨he, _⟩ := yoloStep_ok_shape env fs fs1 h
  rw [he, yoloMove_frame _ q hq1 hq2, yoloTrace_frame env fs q hq1]

theorem yoloStep_lookup_cases (env : Env) (fs : FS) (fs1 : FS) (q : String)
    (h : yoloStep env fs = .ok fs1) (hq : lookupFS fs1 q ≠ none) :
    q = "yolov8n.onnx" ∨ q = dstYolo ∨ lookupFS fs q ≠ none := by
  by_cases hq1 : q = "yolov8n.onnx"
  · exact Or.inl hq1
  by_cases hq2 : q = dstYolo
  · exact Or.inr (Or.inl hq2)
  rw [yoloStep_frame env fs fs1 q h hq1 hq2] at hq
  exact Or.inr (Or.inr hq)

/-- When the YOLO exporter produced a model, a successful YOLO step
leaves it at the destination. -/
theorem yoloStep_dst_content (env : Env) (fs : FS) (fs1 : FS) (m : OnnxModel)
    (h : yoloStep env fs = .ok fs1) (hy : env.yoloOut = some m) :
    lookupFS fs1 dstYolo = some (.onnx m) := by
  obtain ⟨he, _⟩ := yoloStep_ok_shape env fs fs1 h
  subst he
  unfold yoloTrace
  rw [hy]
  unfold yoloMove
  have hex : osPathExists (fsWrite fs "yolov8n.onnx" (.onnx m)) "yolov8n.onnx" = true := by
    unfold osPathExists
    rw [lookupFS_fsWrite, if_pos rfl]
    rfl
  rw [if_pos hex]
  unfold shutilMove
  rw [lookupFS_fsWrite, if_pos rfl, lookupFS_fsWrite, if_pos rfl]

theorem script_ok_cases (env : Env) (fs : FS) (fs3 : FS)
    (h : script env fs = .ok fs3) :
    ∃ fs1 fs2, yoloStep env fs = .ok fs1 ∧ depthStep env fs1 = .ok fs2 ∧
      segStep env fs2 = .ok fs3 := by
  unfold script at h
  cases h1 : yoloStep env fs with
  | error e => rw [h1, bindErr] at h; exact absurd h (by simp)
  | ok fs1 =>
    rw [h1, bindOk] at h
    cases h2 : depthStep env fs1 with
    | error e => rw [h2, bindErr] at h; exact absurd h (by simp)
    | ok fs2 =>
      rw [h2, bindOk] at h
      exact ⟨fs1, fs2, rfl, h2, h⟩

theorem depthStep_frame (env : Env) (fs fs' : FS) (q : String)
    (h : depthStep env fs = .ok fs') (hqd : q ≠ dstDepth) (hqt : q ≠ tmpDepth)
    (hqm : globStarMatch tmpDepth q = false)
    (haux : ∀ s : String, q ≠ tmpDepth ++ "." ++ s) :
    lookupFS fs' q = lookupFS fs q := by
  unfold depthStep at h
  rw [normStep_frame _ tmpDepth dstDepth env.oracles fs' q h hqd hqt hqm,
    lookupFS_torchExport_other fs tmpDepth env.depthModel env.depthAux q hqt
      (fun sb _ => haux sb.1)]

theorem segStep_frame (env : Env) (fs fs' : FS) (q : String)
    (h : segStep env fs = .ok fs') (hqd : q ≠ dstSeg) (hqt : q ≠ tmpSeg)
    (hqm : globStarMatch tmpSeg q = false)
    (haux : ∀ s : String, q ≠ tmpSeg ++ "." ++ s) :
    lookupFS fs' q = lookupFS fs q := by
  unfold segStep at h
  rw [normStep_frame _ tmpSeg dstSeg env.oracles fs' q h hqd hqt hqm,
    lookupFS_torchExport_other fs tmpSeg env.segModel env.segAux q hqt
      (fun sb _ => haux sb.1)]

theorem depthStep_lookup_cases (env : Env) (fs fs' : FS) (q : String)
    (h : depthStep env fs = .ok fs') (hq : lookupFS fs' q ≠ none) :
    q = dstDepth ∨ q = tmpDepth ∨ (∃ sb ∈ env.depthAux, q = tmpDepth ++ "." ++ sb.1) ∨
      lookupFS fs q ≠ none := by
  unfold depthStep at h
  cases normStep_lookup_cases _ tmpDepth dstDepth env.oracles fs' q h hq with
  | inl h1 => exact Or.inl h1
  | inr h1 =>
    cases lookupFS_torchExport_cases fs tmpDepth env.depthModel env.depthAux q h1 with
    | inl h2 => exact Or.inr (Or.inl h2)
    | inr h2 =>
      cases h2 with
      | inl h3 => exact Or.inr (Or.inr (Or.inl h3))
      | inr h3 => exact Or.inr (Or.inr (Or.inr h3))

theorem segStep_lookup_cases (env : Env) (fs fs' : FS) (q : String)
    (h : segStep env fs = .ok fs') (hq : lookupFS fs' q ≠ none) :
    q = dstSeg ∨ q = tmpSeg ∨ (∃ sb ∈ env.segAux, q = tmpSeg ++ "." ++ sb.1) ∨
      lookupFS fs q ≠ none := by
  unfold segStep at h
  cases normStep_lookup_cases _ tmpSeg dstSeg env.oracles fs' q h hq with
  | inl h1 => exact Or.inl h1
  | inr h1 =>
    cases lookupFS_torchExport_cases fs tmpSeg env.segModel env.segAux q h1 with
    | inl h2 => exact Or.inr (Or.inl h2)
    | inr h2 =>
      cases h2 with
      | inl h3 => exact Or.inr (Or.inr (Or.inl h3))
      | inr h3 => exact Or.inr (Or.inr (Or.inr h3))

/-! ### Claim C1 -/

/-- Claim C1 counterexample: with the OS refusing deletions,
`save_single_file` returns successfully yet the source's external-data
file `"m.onnx.data"` (distinct from the destination) remains on disk, so
the claim "no auxiliary external-data files of the source remain" fails
as stated. -/
theorem C1_counterexample :
    save_single_file splitFS "m.onnx" "out.onnx" oNoRemove =
      .ok (getOk (save_single_file splitFS "m.onnx" "out.onnx" oNoRemove)) ∧
    lookupFS (getOk (save_single_file splitFS "m.onnx" "out.onnx" oNoRemove)) "m.onnx.data" =
      some (.raw [5]) ∧
    ("m.onnx.data" : String) ≠ "out.onnx" := by decide

/-- Claim C1 (amended): after `save_single_file(src, dst)` returns
successfully, the destination alone holds the complete graph and weights
(every tensor inline, no external references, and loading the
destination reproduces the materialized model), and a file matching the
source's external-data naming pattern, other than the destination
itself, can remain on disk only when the OS refused its deletion. -/
theorem C1_amended_single_self_contained_file (fs : FS) (src dst : String) (o : Oracles)
    (fs' : FS) (h : save_single_file fs src dst o = .ok fs') :
    ∃ m, onnxLoad fs src = .ok m ∧
      lookupFS fs' dst = some (.onnx m) ∧ allInline m = true ∧
      onnxLoad fs' dst = .ok m ∧
      ∀ k, globStarMatch src k = true → k ≠ dst → lookupFS fs' k ≠ none →
        o.removeOk k = false := by
  obtain ⟨m, hl, hw, hfs⟩ := (save_single_file_ok_iff fs src dst o fs').mp h
  have hin : allInline m = true := onnxLoad_allInline fs src m hl
  have hdst : lookupFS fs' dst = some (.onnx m) := ssf_dst_content fs src dst o fs' m h hl
  refine ⟨m, hl, hdst, hin, onnxLoad_of_self_contained fs' dst m hdst hin, ?_⟩
  intro k hk hkd hsome
  by_contra hro
  rw [Bool.not_eq_false] at hro
  exact hsome (ssf_cleanup_removes fs src dst o fs' h k hk hkd hro)

/-- Claim C1 witness: a concrete split model, normalized with a
well-behaved OS. -/
theorem C1_witness :
    ∃ m, onnxLoad splitFS "m.onnx" = .ok m ∧
      lookupFS (getOk (save_single_file splitFS "m.onnx" "out.onnx" oAll)) "out.onnx" =
        some (.onnx m) ∧ allInline m = true ∧
      onnxLoad (getOk (save_single_file splitFS "m.onnx" "out.onnx" oAll)) "out.onnx" = .ok m ∧
      ∀ k, globStarMatch "m.onnx" k = true → k ≠ "out.onnx" →
        lookupFS (getOk (save_single_file splitFS "m.onnx" "out.onnx" oAll)) k ≠ none →
        oAll.removeOk k = false :=
  C1_amended_single_self_contained_file splitFS "m.onnx" "out.onnx" oAll _ (by decide)

/-! ### Claim C2 -/

/-- Claim C2: for every source and destination path — including a
destination equal to the source or matching the source's external-data
pattern — after a successful `save_single_file` the destination file
still exists: the cleanup step never deletes the just-written output. -/
theorem C2_destination_never_deleted (fs : FS) (src dst : String) (o : Oracles) (fs' : FS)
    (h : save_single_file fs src dst o = .ok fs') :
    lookupFS fs' dst ≠ none := by
  obtain ⟨m, hl, hw, hfs⟩ := (save_single_file_ok_iff fs src dst o fs').mp h
  rw [ssf_dst_content fs src dst o fs' m h hl]
  simp

/-- Claim C2 witness: the destination is the source's own external-data
file `"m.onnx.data"`, exactly the self-deletion hazard. -/
theorem C2_witness :
    lookupFS (getOk (save_single_file splitFS "m.onnx" "m.onnx.data" oAll)) "m.onnx.data" ≠
      none :=
  C2_destination_never_deleted splitFS "m.onnx" "m.onnx.data" oAll _ (by decide)

/-! ### Claim C3 -/

/-- Claim C3: deletion failures during the cleanup step are swallowed and
never propagate: for every removal oracle — however many deletions fail —
once the source loads and the destination write succeeds,
`save_single_file` returns successfully. -/
theorem C3_deletion_failures_swallowed (fs : FS) (src dst : String) (o : Oracles)
    (m : OnnxModel) (hl : onnxLoad fs src = .ok m) (hw : o.writableOk dst = true) :
    save_single_file fs src dst o = .ok (ssfResult fs src dst o m) :=
  (save_single_file_ok_iff fs src dst o _).mpr ⟨m, hl, hw, rfl⟩

/-- Claim C3 witness: every deletion fails, the call still succeeds. -/
theorem C3_witness :
    save_single_file splitFS "m.onnx" "out.onnx" oNoRemove =
      .ok (ssfResult splitFS "m.onnx" "out.onnx" oNoRemove splitModel) :=
  C3_deletion_failures_swallowed splitFS "m.onnx" "out.onnx" oNoRemove splitModel
    (by decide) rfl

/-! ### Claim C4 -/

/-- Claim C4: a source graph file that is already self-contained
normalizes without error, degrading to a plain re-serialize: the
destination afterwards holds exactly the input graph. -/
theorem C4_self_contained_idempotent (fs : FS) (src dst : String) (o : Oracles)
    (m : OnnxModel) (hsrc : lookupFS fs src = some (.onnx m)) (hin : allInline m = true)
    (hw : o.writableOk dst = true) :
    ∃ fs', save_single_file fs src dst o = .ok fs' ∧ lookupFS fs' dst = some (.onnx m) := by
  have hl := onnxLoad_of_self_contained fs src m hsrc hin
  refine ⟨ssfResult fs src dst o m,
    (save_single_file_ok_iff fs src dst o _).mpr ⟨m, hl, hw, rfl⟩, ?_⟩
  unfold ssfResult
  rw [cleanupFold_dst, lookupFS_fsWrite]
  simp

/-- Claim C4 witness: a concrete self-contained source. -/
theorem C4_witness :
    ∃ fs', save_single_file [("m.onnx", .onnx splitModel)] "m.onnx" "out.onnx" oAll =
      .ok fs' ∧ lookupFS fs' "out.onnx" = some (.onnx splitModel) :=
  C4_self_contained_idempotent [("m.onnx", .onnx splitModel)] "m.onnx" "out.onnx" oAll
    splitModel rfl (by decide) rfl

/-! ### Claim C5 -/

/-- Claim C5: `save_single_file` fails with a load error whenever the
source path does not exist or holds something other than a graph file,
and fails with a write error whenever the destination path is not
writable; in both cases the error propagates out of the call. -/
theorem C5_load_and_write_errors (fs : FS) (src dst : String) (o : Oracles) :
    ((lookupFS fs src = none ∨ ∀ m : OnnxModel, lookupFS fs src ≠ some (.onnx m)) →
      save_single_file fs src dst o = .error .loadError) ∧
    (∀ m : OnnxModel, onnxLoad fs src = .ok m → o.writableOk dst = false →
      save_single_file fs src dst o = .error .writeError) := by
  constructor
  · intro h
    have hl : onnxLoad fs src = .error .loadError := by
      unfold onnxLoad
      cases hlk : lookupFS fs src with
      | none => rfl
      | some d =>
        cases d with
        | onnx m =>
          cases h with
          | inl h1 => rw [hlk] at h1; exact absurd h1 (by simp)
          | inr h2 => exact absurd hlk (h2 m)
        | raw b => rfl
        | blob n => rfl
    unfold save_single_file
    rw [hl, bindErr]
  · intro m hm hw
    unfold save_single_file
    rw [hm, bindOk]
    unfold onnxSave
    rw [hw]
    simp [bindErr]

/-- Claim C5 witness: a missing source gives a load error, an unwritable
destination a write error. -/
theorem C5_witness :
    save_single_file [] "missing.onnx" "out.onnx" oAll = .error .loadError ∧
    save_single_file splitFS "m.onnx" "out.onnx" oNoWrite = .error .writeError :=
  ⟨(C5_load_and_write_errors [] "missing.onnx" "out.onnx" oAll).1 (Or.inl rfl),
   (C5_load_and_write_errors splitFS "m.onnx" "out.onnx" oNoWrite).2 splitModel
     (by decide) rfl⟩

/-! ### Claim C9 -/

/-- Claim C9 counterexample: the cleanup indeed targets `"m.onnx.xyz"`
(an arbitrary-suffix sibling), but with the OS refusing deletions the
call succeeds and the file is nevertheless NOT removed, so "it is
removed after a successful normalization" fails as stated. -/
theorem C9_counterexample :
    save_single_file siblingFS "m.onnx" "out.onnx" oNoRemove =
      .ok (getOk (save_single_file siblingFS "m.onnx" "out.onnx" oNoRemove)) ∧
    globStarMatch "m.onnx" "m.onnx.xyz" = true ∧
    lookupFS (getOk (save_single_file siblingFS "m.onnx" "out.onnx" oNoRemove)) "m.onnx.xyz" =
      some (.blob 3) := by decide

/-- Claim C9 (amended): the cleanup targets every sibling whose path is
the source path followed by a dot and any suffix (the glob
`src ++ ".*"`), not only the `.data` convention; any such file other
than the destination is gone after a successful normalization provided
the OS permitted its deletion (deletion failures being swallowed). -/
theorem C9_amended_glob_breadth (fs : FS) (src dst : String) (o : Oracles) (fs' : FS)
    (h : save_single_file fs src dst o = .ok fs') (k : String)
    (hk : globStarMatch src k = true) (hkd : k ≠ dst) (hro : o.removeOk k = true) :
    lookupFS fs' k = none :=
  ssf_cleanup_removes fs src dst o fs' h k hk hkd hro

/-- Claim C9 witness: the non-`.data` sibling `"m.onnx.xyz"` is removed
when the OS permits deletions. -/
theorem C9_witness :
    lookupFS (getOk (save_single_file siblingFS "m.onnx" "out.onnx" oAll)) "m.onnx.xyz" =
      none :=
  C9_amended_glob_breadth siblingFS "m.onnx" "out.onnx" oAll _ (by decide) "m.onnx.xyz"
    (by decide) (by decide) rfl

/-! ### Claim C6 -/

/-- Claim C6 counterexample: a run in which the OS refuses to delete the
depth external-data file `_depth_tmp.onnx.data` completes successfully
(the failure is swallowed by the cleanup), yet that temporary
external-data file still exists afterwards, so the claim fails as
stated. -/
theorem C6_counterexample :
    script c6Env [] = .ok (getOk (script c6Env [])) ∧
    globStarMatch tmpDepth (tmpDepth ++ ".data") = true ∧
    lookupFS (getOk (script c6Env [])) (tmpDepth ++ ".data") = some (.raw [9]) := by decide

/-- Claim C6 (amended): after a successful run of the whole script in
which the OS permitted every best-effort deletion, no temporary file
remains: neither `_depth_tmp.onnx` nor `_seg_tmp.onnx` nor any file
matching their external-data naming convention exists in the output
directory. -/
theorem C6_amended_no_temporaries (env : Env) (fs fs3 : FS)
    (h : script env fs = .ok fs3)
    (hall : ∀ s, env.oracles.removeOk s = true) :
    lookupFS fs3 tmpDepth = none ∧ lookupFS fs3 tmpSeg = none ∧
    (∀ k, globStarMatch tmpDepth k = true → lookupFS fs3 k = none) ∧
    (∀ k, globStarMatch tmpSeg k = true → lookupFS fs3 k = none) := by
  obtain ⟨fs1, fs2, hys, hds, hss⟩ := script_ok_cases env fs fs3 h
  unfold depthStep at hds
  unfold segStep at hss
  obtain ⟨fsd, _, _, htmpd, _⟩ := normStep_ok_cases _ tmpDepth dstDepth env.oracles fs2 hds
  obtain ⟨fss, _, _, htmps, _⟩ := normStep_ok_cases _ tmpSeg dstSeg env.oracles fs3 hss
  refine ⟨?_, htmps, ?_, ?_⟩
  · rw [normStep_frame _ tmpSeg dstSeg env.oracles fs3 tmpDepth hss (by decide) (by decide)
      (by decide) ]
    · rw [lookupFS_torchExport_other fs2 tmpSeg env.segModel env.segAux tmpDepth (by decide)
        (fun sb _ => ne_of_take_front tmpSeg tmpDepth (by decide) sb.1)]
      exact htmpd
  · intro k hk
    have hkd : k ≠ dstDepth := by
      intro he
      rw [he] at hk
      exact absurd hk (by decide)
    have hk2 : lookupFS fs2 k = none :=
      normStep_conv_removed _ tmpDepth dstDepth env.oracles fs2 hds hall k hk hkd
    by_cases h3 : lookupFS fs3 k = none
    · exact h3
    exfalso
    rcases normStep_lookup_cases _ tmpSeg dstSeg env.oracles fs3 k hss h3 with he | hne
    · rw [he] at hk
      exact absurd hk (by decide)
    rcases lookupFS_torchExport_cases fs2 tmpSeg env.segModel env.segAux k hne with
      he | ⟨sb, _, he⟩ | hne2
    · rw [he] at hk
      exact absurd hk (by decide)
    · rw [he, globStarMatch_ne_of_take tmpDepth tmpSeg sb.1 (by decide)] at hk
      exact Bool.noConfusion hk
    · exact hne2 hk2
  · intro k hk
    have hkd : k ≠ dstSeg := by
      intro he
      rw [he] at hk
      exact absurd hk (by decide)
    exact normStep_conv_removed _ tmpSeg dstSeg env.oracles fs3 hss hall k hk hkd

/-- Claim C6 witness: a concrete run with a well-behaved OS, evaluated
from an empty initial state. -/
theorem C6_witness :
    lookupFS (getOk (script wEnv [])) tmpDepth = none ∧
    lookupFS (getOk (script wEnv [])) tmpSeg = none ∧
    (∀ k, globStarMatch tmpDepth k = true → lookupFS (getOk (script wEnv [])) k = none) ∧
    (∀ k, globStarMatch tmpSeg k = true → lookupFS (getOk (script wEnv [])) k = none) :=
  C6_amended_no_temporaries wEnv [] (getOk (script wEnv [])) (by decide) (fun s => rfl)

/-! ### Claim C7 -/

/-- Claim C7 counterexample: the claim as stated is false of the code:
the YOLO export call passes no explicit input/output names and no
constant-folding flag (only `simplify=True`), so it is not the case that
each of the three export procedures names its inputs and outputs
explicitly and requests constant-folding optimization. -/
theorem C7_counterexample :
    c7Stated = false ∧ yoloView.namesExplicit = false ∧
    yoloView.constantFoldingRequested = false ∧ yoloExportArgs.simplify = true := by decide

/-- Claim C7 (amended): all three export calls fix operator-set version
17; the two `torch.onnx.export` calls (depth and SegFormer) name their
inputs and outputs explicitly and request constant folding, while the
YOLO call names none and requests graph simplification instead of
constant folding; and exactly one of the three — the SegFormer call —
declares a variable batch dimension on its input and output. -/
theorem C7_amended_export_calls :
    (exportViews.all (fun v => v.opset == 17)) = true ∧
    (torchView depthExportArgs).namesExplicit = true ∧
    (torchView depthExportArgs).constantFoldingRequested = true ∧
    (torchView segExportArgs).namesExplicit = true ∧
    (torchView segExportArgs).constantFoldingRequested = true ∧
    yoloView.namesExplicit = false ∧ yoloView.constantFoldingRequested = false ∧
    yoloExportArgs.simplify = true ∧
    (exportViews.filter (fun v => v.variableBatch)).length = 1 ∧
    (torchView segExportArgs).variableBatch = true := by decide

/-! ### Claim C8 -/

/-- Claim C8: after a successful run of the whole script in which the
YOLO exporter produced its file, starting from a state holding no
auxiliary file with a base name matching one of the three outputs, each
of the three output files exists with non-zero size, and no
auxiliary/external-data file with a matching base name exists alongside
any of them. -/
theorem C8_outputs_exist_nonzero_no_aux (env : Env) (fs fs3 : FS) (my : OnnxModel)
    (h : script env fs = .ok fs3) (hy : env.yoloOut = some my)
    (hclean : ∀ k, globStarMatch dstYolo k = true ∨ globStarMatch dstDepth k = true ∨
      globStarMatch dstSeg k = true → lookupFS fs k = none) :
    (∃ d, lookupFS fs3 dstYolo = some d ∧ 0 < fileSize d) ∧
    (∃ d, lookupFS fs3 dstDepth = some d ∧ 0 < fileSize d) ∧
    (∃ d, lookupFS fs3 dstSeg = some d ∧ 0 < fileSize d) ∧
    (∀ k, globStarMatch dstYolo k = true ∨ globStarMatch dstDepth k = true ∨
      globStarMatch dstSeg k = true → lookupFS fs3 k = none) := by
  obtain ⟨fs1, fs2, hys, hds, hss⟩ := script_ok_cases env fs fs3 h
  have hszOnnx : ∀ m : OnnxModel, 0 < fileSize (.onnx m) := by
    intro m
    have he : fileSize (.onnx m) = 1 + (m.tensors.map tensorSize).sum := rfl
    omega
  refine ⟨?_, ?_, ?_, ?_⟩
  · -- the YOLO output survives the two later steps
    have hY1 : lookupFS fs1 dstYolo = some (.onnx my) :=
      yoloStep_dst_content env fs fs1 my hys hy
    have hY2 : lookupFS fs2 dstYolo = some (.onnx my) := by
      rw [depthStep_frame env fs1 fs2 dstYolo hds (by decide) (by decide) (by decide)
        (ne_of_take_front tmpDepth dstYolo (by decide))]
      exact hY1
    have hY3 : lookupFS fs3 dstYolo = some (.onnx my) := by
      rw [segStep_frame env fs2 fs3 dstYolo hss (by decide) (by decide) (by decide)
        (ne_of_take_front tmpSeg dstYolo (by decide))]
      exact hY2
    exact ⟨.onnx my, hY3, hszOnnx my⟩
  · -- the depth output is written by its normStep and survives the seg step
    unfold depthStep at hds
    obtain ⟨mD, hD2⟩ :=
      normStep_dst_content _ tmpDepth dstDepth env.oracles fs2 hds (by decide)
    have hD3 : lookupFS fs3 dstDepth = some (.onnx mD) := by
      rw [segStep_frame env fs2 fs3 dstDepth hss (by decide) (by decide) (by decide)
        (ne_of_take_front tmpSeg dstDepth (by decide))]
      exact hD2
    exact ⟨.onnx mD, hD3, hszOnnx mD⟩
  · unfold segStep at hss
    obtain ⟨mS, hS3⟩ :=
      normStep_dst_content _ tmpSeg dstSeg env.oracles fs3 hss (by decide)
    exact ⟨.onnx mS, hS3, hszOnnx mS⟩
  · intro k hk
    have hk1 : lookupFS fs1 k = none := by
      by_cases h1 : lookupFS fs1 k = none
      · exact h1
      exfalso
      rcases yoloStep_lookup_cases env fs fs1 k hys h1 with he | he | hne
      · rw [he] at hk
        rcases hk with hk | hk | hk <;> exact absurd hk (by decide)
      · rw [he] at hk
        rcases hk with hk | hk | hk <;> exact absurd hk (by decide)
      · exact hne (hclean k hk)
    have hk2 : lookupFS fs2 k = none := by
      by_cases h2 : lookupFS fs2 k = none
      · exact h2
      exfalso
      unfold depthStep at hds
      rcases normStep_lookup_cases _ tmpDepth dstDepth env.oracles fs2 k hds h2 with
        he | hne
      · rw [he] at hk
        rcases hk with hk | hk | hk <;> exact absurd hk (by decide)
      rcases lookupFS_torchExport_cases fs1 tmpDepth env.depthModel env.depthAux k hne with
        he | ⟨sb, _, he⟩ | hne2
      · rw [he] at hk
        rcases hk with hk | hk | hk <;> exact absurd hk (by decide)
      · rw [he] at hk
        rcases hk with hk | hk | hk
        · rw [globStarMatch_ne_of_take dstYolo tmpDepth sb.1 (by decide)] at hk
          exact Bool.noConfusion hk
        · rw [globStarMatch_ne_of_take dstDepth tmpDepth sb.1 (by decide)] at hk
          exact Bool.noConfusion hk
        · rw [globStarMatch_ne_of_take dstSeg tmpDepth sb.1 (by decide)] at hk
          exact Bool.noConfusion hk
      · exact hne2 hk1
    by_cases h3 : lookupFS fs3 k = none
    · exact h3
    exfalso
    unfold segStep at hss
    rcases normStep_lookup_cases _ tmpSeg dstSeg env.oracles fs3 k hss h3 with he | hne
    · rw [he] at hk
      rcases hk with hk | hk | hk <;> exact absurd hk (by decide)
    rcases lookupFS_torchExport_cases fs2 tmpSeg env.segModel env.segAux k hne with
      he | ⟨sb, _, he⟩ | hne2
    · rw [he] at hk
      rcases hk with hk | hk | hk <;> exact absurd hk (by decide)
    · rw [he] at hk
      rcases hk with hk | hk | hk
      · rw [globStarMatch_ne_of_take dstYolo tmpSeg sb.1 (by decide)] at hk
        exact Bool.noConfusion hk
      · rw [globStarMatch_ne_of_take dstDepth tmpSeg sb.1 (by decide)] at hk
        exact Bool.noConfusion hk
      · rw [globStarMatch_ne_of_take dstSeg tmpSeg sb.1 (by decide)] at hk
        exact Bool.noConfusion hk
    · exact hne2 hk2

/-- Claim C8 witness: a concrete successful run from an empty state. -/
theorem C8_witness :
    (∃ d, lookupFS (getOk (script wEnv [])) dstYolo = some d ∧ 0 < fileSize d) ∧
    (∃ d, lookupFS (getOk (script wEnv [])) dstDepth = some d ∧ 0 < fileSize d) ∧
    (∃ d, lookupFS (getOk (script wEnv [])) dstSeg = some d ∧ 0 < fileSize d) ∧
    (∀ k, globStarMatch dstYolo k = true ∨ globStarMatch dstDepth k = true ∨
      globStarMatch dstSeg k = true → lookupFS (getOk (script wEnv [])) k = none) :=
  C8_outputs_exist_nonzero_no_aux wEnv [] (getOk (script wEnv [])) ⟨1, []⟩ (by decide) rfl
    (fun k _ => rfl)

/-! ### Claim C10 -/

/-- Claim C10: when the YOLO exporter produced no `yolov8n.onnx` (and no
stale one pre-exists), the guarded move is skipped — it is a no-op, not
a failure — and the YOLO step aborts at the subsequent size-reporting
call exactly when no destination file `yolov8n_fp16.onnx` exists either;
when a destination exists, the step completes. -/
theorem C10_yolo_move_guard (env : Env) (fs : FS)
    (h1 : env.yoloOut = none) (h2 : lookupFS fs "yolov8n.onnx" = none) :
    yoloMove (yoloTrace env fs) = yoloTrace env fs ∧
    (lookupFS fs dstYolo = none → yoloStep env fs = .error .osError) ∧
    (lookupFS fs dstYolo ≠ none → ∃ fs1, yoloStep env fs = .ok fs1) := by
  have ht : yoloTrace env fs = fs := by
    unfold yoloTrace
    rw [h1]
  have hm : yoloMove fs = fs := by
    unfold yoloMove osPathExists
    rw [h2]
    rfl
  refine ⟨by rw [ht, hm], ?_, ?_⟩
  · intro hd
    unfold yoloStep
    simp only []
    rw [ht, hm]
    unfold osGetsize
    rw [hd, bindErr]
  · intro hd
    unfold yoloStep
    simp only []
    rw [ht, hm]
    unfold osGetsize
    cases hl : lookupFS fs dstYolo with
    | none => exact absurd hl hd
    | some d => exact ⟨fs, rfl⟩

/-- Claim C10 witness: a concrete run whose exporter produced nothing
and whose destination is absent aborts with an `OSError` at the size
report, after a no-op move. -/
theorem C10_witness :
    yoloMove (yoloTrace c10Env []) = yoloTrace c10Env [] ∧
    yoloStep c10Env [] = .error .osError := by
  have h := C10_yolo_move_guard c10Env [] rfl rfl
  exact ⟨h.1, h.2.1 rfl⟩

end ExportModels
